import Mathlib

/-!
Verification development for the ghostwriter tokenization/codec subsystem.

The repository's `ghostwriter/text.py` (TokenCodec, GloVeCodec,
CharacterTokenizer, SentenceTokenizer, stream readers) is not part of the
available sources; those components are modelled here from the
specification.  `ghostwriter/command.py` is available and its `train` and
`generate` commands are embedded from the source.
-/

namespace Ghostwriter

/-- Modelled from the spec: a Token is an atomic unit of text (a character
or a word) with a boolean `is_meta` flag distinguishing synthetic markers
from literal text.  (`ghostwriter/text.py` is missing from the sources.) -/
structure Token where
  text : String
  is_meta : Bool
deriving DecidableEq, Repr

/-- Modelled from the spec: constructor for synthetic meta tokens. -/
def Token.meta (s : String) : Token := ⟨s, true⟩

/-- Modelled from the spec: a literal (non-meta) token carrying text. -/
def Token.lit (s : String) : Token := ⟨s, false⟩

/-- Modelled from the spec: `str(token)` as used by the generation loop
returns the token's surface text. -/
def Token.str (t : Token) : String := t.text

/-- Modelled from the spec: the padding sentinel token (reserved index 0). -/
def PAD : Token := Token.meta "-PAD-"

/-- Modelled from the spec: the out-of-vocabulary sentinel token
(reserved index 1). -/
def OOV : Token := Token.meta "-OOV-"

/-- Modelled from the spec: the end-of-sentence meta token inserted by
SentenceTokenizer (its text `-EOS-` appears in the tests). -/
def EOS : Token := Token.meta "-EOS-"

/-- Modelled from the spec: a TokenCodec owns the distinct observed tokens
in first-occurrence order; indices 2..n+1 map to them, with PAD=0, OOV=1.
(`ghostwriter/text.py` is missing from the sources.) -/
structure TokenCodec where
  vocab : List Token
deriving DecidableEq, Repr

/-- Modelled from the spec: collect the distinct tokens of a stream in
first-occurrence order. -/
def firstOccurrences : List Token → List Token
  | [] => []
  | t :: ts => t :: (firstOccurrences ts).filter (fun u => u ≠ t)

/-- Modelled from the spec: `TokenCodec.create_from_tokens` scans the full
stream once and keeps the distinct tokens in first-occurrence order. -/
def TokenCodec.create_from_tokens (ts : List Token) : TokenCodec :=
  ⟨firstOccurrences ts⟩

/-- Modelled from the spec: total index count, observed tokens plus the two
reserved slots. -/
def TokenCodec.vocabulary_size (c : TokenCodec) : Nat :=
  c.vocab.length + 2

/-- Modelled from the spec: position of the first occurrence of an element
in a list, the index-lookup primitive of the codecs' bidirectional maps. -/
def lookupIndex {α : Type} [DecidableEq α] (x : α) : List α → Option Nat
  | [] => none
  | y :: rest => if y = x then some 0 else (lookupIndex x rest).map (· + 1)

/-- Modelled from the spec: encode one token; vocabulary members map to
their index shifted past the two reserved slots, unseen tokens map to
OOV's index 1. -/
def TokenCodec.encodeToken (c : TokenCodec) (t : Token) : Nat :=
  match lookupIndex t c.vocab with
  | some i => i + 2
  | none => 1

/-- Modelled from the spec: lazily encode a token sequence, one index per
token. -/
def TokenCodec.encode (c : TokenCodec) (ts : List Token) : List Nat :=
  ts.map c.encodeToken

/-- Modelled from the spec: decode one index; 0 is PAD, 1 is OOV, other
indices look up the vocabulary and an out-of-range index is an error
(`none`, the embedding of the `IndexError`-class failure). -/
def TokenCodec.decodeToken (c : TokenCodec) (i : Nat) : Option Token :=
  if i = 0 then some PAD
  else if i = 1 then some OOV
  else c.vocab.get? (i - 2)

/-- Modelled from the spec: decode an index sequence; any out-of-range
index fails the whole decode. -/
def TokenCodec.decode (c : TokenCodec) : List Nat → Option (List Token)
  | [] => some []
  | i :: rest =>
    match c.decodeToken i, c.decode rest with
    | some t, some ts => some (t :: ts)
    | _, _ => none

/-- Modelled from the spec: the character stream of a raw text, one literal
token per character. -/
def charTokens (s : String) : List Token :=
  s.toList.map (fun c => Token.lit c.toString)

/-- Modelled from the spec: the shared sliding-window helper.  Starting
from the current context window, each consumed token is emitted as a
(context, target) pair and then shifted into the window, evicting the
oldest entry. -/
def slideWindow (window : List Token) : List Token → List (List Token × Token)
  | [] => []
  | t :: rest => (window, t) :: slideWindow ((window ++ [t]).drop 1) rest

/-- Modelled from the spec: `CharacterTokenizer.from_text` slides a window
of width `C` over the character stream, left-padded with PAD, and keeps
sliding past the end, feeding PAD, until the window itself is fully PAD
(equivalently: `C` trailing PAD targets are emitted). -/
def CharacterTokenizer.from_text (C : Nat) (text : List Token) :
    List (List Token × Token) :=
  slideWindow (List.replicate C PAD) (text ++ List.replicate C PAD)

/-- Modelled from the spec: SentenceTokenizer inserts exactly one EOS meta
token after each detected sentence's words.  The external sentence/word
segmenter is a collaborator; it is represented here by its output, the
list of sentences, each a list of word tokens. -/
def SentenceTokenizer.tokensWithEOS (sentences : List (List Token)) : List Token :=
  (sentences.map (fun s => s ++ [EOS])).flatten

/-- Modelled from the spec: `SentenceTokenizer.from_text` segments the text
into sentences of words (via the injected segmenter, represented by its
output), appends one EOS meta token per sentence, and then applies the
same fixed-width-window algorithm as CharacterTokenizer. -/
def SentenceTokenizer.from_text (C : Nat) (sentences : List (List Token)) :
    List (List Token × Token) :=
  CharacterTokenizer.from_text C (SentenceTokenizer.tokensWithEOS sentences)

/-- Modelled from the spec: a GloVeCodec built with capacity `N` and `m`
caller-supplied meta tokens maps PAD to 0, OOV to 1, the meta tokens to
the reserved consecutive indices 2..(1+m), and the top-`N` pretrained
words, in descending frequency order, to the remaining indices.
(`ghostwriter/text.py` is missing from the sources.) -/
structure GloVeCodec where
  metas : List Token
  words : List String
  vectors : List (List Int)
  dim : Nat
deriving DecidableEq, Repr

/-- Modelled from the spec: construct a GloVeCodec from an external
pretrained-vector source (word, vector) pairs enumerated in descending
frequency order, a capacity `N` and the meta tokens; fails if `N` exceeds
the available vocabulary size. -/
def GloVeCodec.create (source : List (String × List Int)) (dim : Nat)
    (N : Nat) (metas : List Token) : Option GloVeCodec :=
  if N ≤ source.length then
    some ⟨metas, (source.take N).map Prod.fst, (source.take N).map Prod.snd, dim⟩
  else none

/-- Modelled from the spec: total label-space width, capacity plus meta
tokens plus the two reserved slots. -/
def GloVeCodec.vocabulary_size (c : GloVeCodec) : Nat :=
  c.words.length + c.metas.length + 2

/-- Modelled from the spec: the (vocabulary_size × embedding_dim) table;
rows for PAD, OOV and the meta tokens hold the zero sentinel vector, the
remaining rows hold the pretrained vectors in index order. -/
def GloVeCodec.embedding_matrix (c : GloVeCodec) : List (List Int) :=
  List.replicate (c.metas.length + 2) (List.replicate c.dim 0) ++ c.vectors

/-- Modelled from the spec: decode one index; 0 is PAD, 1 is OOV, the
reserved indices yield the corresponding meta token, the other valid
indices yield the pretrained word, and out-of-range is an error
(`none`). -/
def GloVeCodec.decodeToken (c : GloVeCodec) (i : Nat) : Option Token :=
  if i = 0 then some PAD
  else if i = 1 then some OOV
  else
    match c.metas.get? (i - 2) with
    | some m => some m
    | none => (c.words.get? (i - 2 - c.metas.length)).map Token.lit

/-- Modelled from the spec: decode an index sequence; any out-of-range
index fails the whole decode. -/
def GloVeCodec.decode (c : GloVeCodec) : List Nat → Option (List Token)
  | [] => some []
  | i :: rest =>
    match c.decodeToken i, c.decode rest with
    | some t, some ts => some (t :: ts)
    | _, _ => none

/-- Modelled from the spec: encode one token by case-sensitive exact match;
meta tokens take their reserved index, matched words their index past the
reserved block, and unmatched tokens fall back to OOV's index 1. -/
def GloVeCodec.encodeToken (c : GloVeCodec) (t : Token) : Nat :=
  match lookupIndex t c.metas with
  | some i => i + 2
  | none =>
    if t.is_meta then 1
    else
      match lookupIndex t.text c.words with
      | some i => i + c.metas.length + 2
      | none => 1

/-- Modelled from the spec: a text source is a repeatable ordered character
stream with a read cursor; re-reading is possible because the reader seeks
back to the start (`sources must support independent repeated reads, e.g.
via re-opening or seeking`). -/
structure TextFile where
  contents : List Char
  pos : Nat
deriving DecidableEq, Repr

/-- Modelled from the spec: `characters_from_text_files` lazily reads each
open source from its start (seeking first) and concatenates the streams in
source order; it returns the characters together with the sources in their
post-read state. -/
def characters_from_text_files : List TextFile → List Char × List TextFile
  | [] => ([], [])
  | f :: rest =>
    let cs := f.contents
    let f2 : TextFile := ⟨f.contents, f.contents.length⟩
    let (css, rest2) := characters_from_text_files rest
    (cs ++ css, f2 :: rest2)

/-! Embeddings of `ghostwriter/command.py`, which is in the sources. -/

/-- From `generate_command` in `ghostwriter/command.py`: the command writes
the seed verbatim, then the surface text of the first `characters` tokens
of the model's generated stream that are not meta tokens.  The model's
stream is represented by the (finite prefix of the) token sequence it
yields. -/
def generate_command_output (seed : String) (characters : Nat)
    (stream : List Token) : String :=
  seed ++ String.join
    (((stream.filter (fun t => !t.is_meta)).take characters).map Token.str)

/-- From `train_command` in `ghostwriter/command.py`: the observable model
set-up actions the command takes before the training call. -/
structure TrainSetup where
  loadedFrom : Option String
  createdFresh : Bool
  savedBeforeTraining : Option String
  warnedNotSaving : Bool
  trainSavePath : Option String
deriving DecidableEq, Repr

/-- From `train_command` in `ghostwriter/command.py`: if `--model` names an
existing path the saved model is loaded; otherwise a fresh tokenizer and
model are created, which are saved when `--model` was given and otherwise
only a warning is logged; the training call receives the `--model` path in
every branch. -/
def train_command_setup (model : Option String) (pathExists : String → Bool) :
    TrainSetup :=
  match model with
  | some p =>
    if pathExists p then ⟨some p, false, none, false, some p⟩
    else ⟨none, true, some p, false, some p⟩
  | none => ⟨none, true, none, true, none⟩

/-! Helper lemmas. -/

theorem mem_firstOccurrences {t : Token} :
    ∀ {ts : List Token}, t ∈ firstOccurrences ts ↔ t ∈ ts := by
  intro ts
  induction ts with
  | nil => simp [firstOccurrences]
  | cons u us ih =>
    simp only [firstOccurrences, List.mem_cons, List.mem_filter, ih,
      decide_eq_true_eq, ne_eq]
    by_cases h : t = u <;> tauto

theorem nodup_firstOccurrences : ∀ (ts : List Token), (firstOccurrences ts).Nodup := by
  intro ts
  induction ts with
  | nil => simp [firstOccurrences]
  | cons u us ih =>
    simp only [firstOccurrences, List.nodup_cons]
    refine ⟨fun hmem => ?_, ih.filter _⟩
    have := (List.mem_filter.mp hmem).2
    simp at this

theorem toFinset_firstOccurrences (ts : List Token) :
    (firstOccurrences ts).toFinset = ts.toFinset := by
  ext x
  simp [List.mem_toFinset, mem_firstOccurrences]

theorem lookupIndex_get? {α : Type} [DecidableEq α] {x : α} :
    ∀ {l : List α}, x ∈ l → ∃ i, lookupIndex x l = some i ∧ l.get? i = some x := by
  intro l
  induction l with
  | nil => intro h; cases h
  | cons y rest ih =>
    intro hmem
    by_cases hyx : y = x
    · exact ⟨0, by simp [lookupIndex, hyx], by simp [hyx]⟩
    · have hrest : x ∈ rest := by
        rcases List.mem_cons.mp hmem with h | h
        · exact absurd h.symm hyx
        · exact h
      obtain ⟨i, hli, hget⟩ := ih hrest
      exact ⟨i + 1, by simp [lookupIndex, hyx, hli], by simpa using hget⟩

theorem lookupIndex_eq_none {α : Type} [DecidableEq α] {x : α} :
    ∀ {l : List α}, x ∉ l → lookupIndex x l = none := by
  intro l
  induction l with
  | nil => intro _; rfl
  | cons y rest ih =>
    intro hmem
    have hyx : ¬ y = x := fun h => hmem (h ▸ List.mem_cons_self y rest)
    have hrest : x ∉ rest := fun h => hmem (List.mem_cons_of_mem y h)
    simp [lookupIndex, hyx, ih hrest]

theorem getElem?_isSome_iff {α : Type} (l : List α) (n : Nat) :
    l[n]?.isSome ↔ n < l.length := by
  rw [Option.isSome_iff_ne_none, ne_eq, List.getElem?_eq_none_iff]
  omega

theorem slideWindow_eq (s : List Token) : ∀ (w : List Token),
    slideWindow w s = (List.range s.length).map
      (fun i => (((w ++ s).drop i).take w.length, s.getD i PAD)) := by
  induction s with
  | nil => intro w; rfl
  | cons t rest ih =>
    intro w
    show (w, t) :: slideWindow ((w ++ [t]).drop 1) rest = _
    rw [ih ((w ++ [t]).drop 1)]
    simp only [List.length_cons]
    rw [List.range_succ_eq_map]
    simp only [List.map_cons, List.map_map]
    have hw : ((w ++ [t]).drop 1).length = w.length := by simp
    have happ : (w ++ [t]).drop 1 ++ rest = (w ++ t :: rest).drop 1 := by
      have h1 : w ++ t :: rest = (w ++ [t]) ++ rest := by simp
      rw [h1]
      refine (List.drop_append_of_le_length ?_).symm
      simp only [List.length_append, List.length_cons, List.length_nil]
      omega
    congr 1
    · simp [List.take_left]
    · apply List.map_congr_left
      intro i _
      simp only [Function.comp]
      rw [happ, List.drop_drop, hw]
      simp [Nat.add_comm]

theorem count_tokensWithEOS (sentences : List (List Token)) :
    (SentenceTokenizer.tokensWithEOS sentences).count EOS
      = sentences.length + sentences.flatten.count EOS := by
  induction sentences with
  | nil => rfl
  | cons s ss ih =>
    simp only [SentenceTokenizer.tokensWithEOS, List.map_cons, List.flatten_cons,
      List.count_append, List.length_cons] at *
    rw [ih]
    have hone : List.count EOS [EOS] = 1 := by simp
    omega

/-! Claim theorems. -/

/-- C1: for a text of length `L` and context size `C`,
`CharacterTokenizer.from_text` produces exactly `L + C` (context, target)
pairs; the `i`-th window is the width-`C` slice starting at `i` of the text
padded with `C` PADs on both sides (so early windows are left-padded and
later windows exactly match the preceding characters), the `i`-th target is
the `i`-th character for `i < L` and PAD afterwards, sliding stops exactly
when the next window would be fully PAD, and the `"flue"` example with
`C = 3` yields the seven documented pairs. -/
theorem character_tokenizer_from_text_spec (text : List Token) (C : Nat) :
    (CharacterTokenizer.from_text C text).length = text.length + C ∧
    CharacterTokenizer.from_text C text =
      (List.range (text.length + C)).map (fun i =>
        (((List.replicate C PAD ++ (text ++ List.replicate C PAD)).drop i).take C,
         (text ++ List.replicate C PAD).getD i PAD)) ∧
    ((List.replicate C PAD ++ (text ++ List.replicate C PAD)).drop
        (text.length + C)).take C = List.replicate C PAD ∧
    CharacterTokenizer.from_text 3 (charTokens "flue") =
      [([PAD, PAD, PAD], Token.lit "f"),
       ([PAD, PAD, Token.lit "f"], Token.lit "l"),
       ([PAD, Token.lit "f", Token.lit "l"], Token.lit "u"),
       ([Token.lit "f", Token.lit "l", Token.lit "u"], Token.lit "e"),
       ([Token.lit "l", Token.lit "u", Token.lit "e"], PAD),
       ([Token.lit "u", Token.lit "e", PAD], PAD),
       ([Token.lit "e", PAD, PAD], PAD)] := by
  have hclosed : CharacterTokenizer.from_text C text =
      (List.range (text.length + C)).map (fun i =>
        (((List.replicate C PAD ++ (text ++ List.replicate C PAD)).drop i).take C,
         (text ++ List.replicate C PAD).getD i PAD)) := by
    show slideWindow (List.replicate C PAD) (text ++ List.replicate C PAD) = _
    rw [slideWindow_eq]
    simp
  refine ⟨?_, hclosed, ?_, by decide⟩
  · rw [hclosed]; simp
  · have hlen : (List.replicate C PAD ++ text).length = text.length + C := by
      simp [Nat.add_comm]
    rw [← List.append_assoc, List.drop_left' hlen]
    simp [List.take_replicate]

/-- C2: for every token present in the stream a TokenCodec was built from,
decoding the encoding of the one-element sequence `[t]` yields `[t]`
again: the round trip is lossless for in-vocabulary tokens. -/
theorem token_codec_roundtrip_in_vocab (ts : List Token) (t : Token)
    (h : t ∈ ts) :
    (TokenCodec.create_from_tokens ts).decode
      ((TokenCodec.create_from_tokens ts).encode [t]) = some [t] := by
  have hv : t ∈ (TokenCodec.create_from_tokens ts).vocab :=
    mem_firstOccurrences.mpr h
  obtain ⟨i, hli, hget⟩ := lookupIndex_get? hv
  have he : (TokenCodec.create_from_tokens ts).encode [t] = [i + 2] := by
    simp [TokenCodec.encode, TokenCodec.encodeToken, hli]
  rw [he]
  rw [List.get?_eq_getElem?] at hget
  simp [TokenCodec.decode, TokenCodec.decodeToken, hget]

/-- Witness for C2 at a concrete input. -/
theorem token_codec_roundtrip_in_vocab_witness :
    (TokenCodec.create_from_tokens [Token.lit "a"]).decode
      ((TokenCodec.create_from_tokens [Token.lit "a"]).encode [Token.lit "a"])
      = some [Token.lit "a"] :=
  token_codec_roundtrip_in_vocab [Token.lit "a"] (Token.lit "a")
    (List.mem_singleton.mpr rfl)

/-- C3: for every token absent from the stream a TokenCodec was built
from, encode maps it to the OOV index 1 (a silent deterministic fallback,
not an error), so decoding the encoding of `[t]` yields `[OOV]`. -/
theorem token_codec_unknown_to_oov (ts : List Token) (t : Token)
    (h : t ∉ ts) :
    (TokenCodec.create_from_tokens ts).encode [t] = [1] ∧
    (TokenCodec.create_from_tokens ts).decode
      ((TokenCodec.create_from_tokens ts).encode [t]) = some [OOV] := by
  have hv : t ∉ (TokenCodec.create_from_tokens ts).vocab := fun hmem =>
    h (mem_firstOccurrences.mp hmem)
  have hn := lookupIndex_eq_none hv
  constructor
  · simp [TokenCodec.encode, TokenCodec.encodeToken, hn]
  · simp [TokenCodec.encode, TokenCodec.encodeToken, hn,
      TokenCodec.decode, TokenCodec.decodeToken]

/-- Witness for C3 at a concrete input. -/
theorem token_codec_unknown_to_oov_witness :
    (TokenCodec.create_from_tokens [Token.lit "a"]).encode [Token.lit "z"] = [1] ∧
    (TokenCodec.create_from_tokens [Token.lit "a"]).decode
      ((TokenCodec.create_from_tokens [Token.lit "a"]).encode [Token.lit "z"])
      = some [OOV] :=
  token_codec_unknown_to_oov [Token.lit "a"] (Token.lit "z") (by decide)

/-- C4: a TokenCodec built from a stream with `k` distinct tokens has
vocabulary size `k + 2` (the observed tokens plus the reserved PAD and OOV
slots). -/
theorem token_codec_vocabulary_size_eq (ts : List Token) :
    (TokenCodec.create_from_tokens ts).vocabulary_size = ts.toFinset.card + 2 := by
  have h1 : (firstOccurrences ts).toFinset.card = (firstOccurrences ts).length :=
    List.toFinset_card_of_nodup (nodup_firstOccurrences ts)
  have h2 : (firstOccurrences ts).toFinset = ts.toFinset :=
    toFinset_firstOccurrences ts
  show (firstOccurrences ts).length + 2 = ts.toFinset.card + 2
  rw [← h2, h1]

/-- C5: a GloVeCodec constructed with capacity `N` and `m` caller-supplied
meta tokens has `vocabulary_size = N + m + 2`, and (when every source
vector has the embedding dimension) its embedding matrix has exactly
`N + m + 2` rows, each of width `embedding_dim`. -/
theorem glove_codec_size_spec (source : List (String × List Int)) (dim N : Nat)
    (metas : List Token) (c : GloVeCodec)
    (h : GloVeCodec.create source dim N metas = some c)
    (hdim : ∀ e ∈ source, e.2.length = dim) :
    c.vocabulary_size = N + metas.length + 2 ∧
    c.embedding_matrix.length = N + metas.length + 2 ∧
    ∀ row ∈ c.embedding_matrix, row.length = dim := by
  unfold GloVeCodec.create at h
  by_cases hle : N ≤ source.length
  · rw [if_pos hle] at h
    obtain rfl : c = ⟨metas, (source.take N).map Prod.fst,
        (source.take N).map Prod.snd, dim⟩ := (Option.some_injective _ h).symm
    have hwlen : ((source.take N).map Prod.fst).length = N := by
      simp [List.length_take, Nat.min_eq_left hle]
    have hvlen : ((source.take N).map Prod.snd).length = N := by
      simp [List.length_take, Nat.min_eq_left hle]
    refine ⟨?_, ?_, ?_⟩
    · simp [GloVeCodec.vocabulary_size, hwlen]; omega
    · simp [GloVeCodec.embedding_matrix, hvlen]; omega
    · intro row hrow
      rcases List.mem_append.mp hrow with hrep | hvec
      · rw [List.eq_of_mem_replicate hrep]
        simp
      · obtain ⟨e, he, rfl⟩ := List.mem_map.mp hvec
        exact hdim e (List.mem_of_mem_take he)
  · rw [if_neg hle] at h
    cases h

/-- Witness for C5 at a concrete input. -/
theorem glove_codec_size_spec_witness :
    (GloVeCodec.mk [EOS] ["a", "b"] [[0], [7]] 1).vocabulary_size = 2 + 1 + 2 ∧
    (GloVeCodec.mk [EOS] ["a", "b"] [[0], [7]] 1).embedding_matrix.length
      = 2 + 1 + 2 ∧
    ∀ row ∈ (GloVeCodec.mk [EOS] ["a", "b"] [[0], [7]] 1).embedding_matrix,
      row.length = 1 :=
  glove_codec_size_spec [("a", [0]), ("b", [7])] 1 2 [EOS]
    (GloVeCodec.mk [EOS] ["a", "b"] [[0], [7]] 1) rfl (by decide)

/-- C6: SentenceTokenizer appends exactly one EOS meta token per detected
sentence before windowing (so the EOS count of the windowed stream is the
sentence count, plus any EOS already inside the sentences), it then applies
the very same sliding-window algorithm as CharacterTokenizer with EOS as
ordinary window content, and the documented `"The blue fox ran"` example
with `C = 3` yields the eight listed pairs, EOS sliding through later
windows' context. -/
theorem sentence_tokenizer_eos_spec (sentences : List (List Token)) (C : Nat) :
    (SentenceTokenizer.tokensWithEOS sentences).count EOS
      = sentences.length + sentences.flatten.count EOS ∧
    SentenceTokenizer.from_text C sentences
      = CharacterTokenizer.from_text C (SentenceTokenizer.tokensWithEOS sentences) ∧
    SentenceTokenizer.from_text 3
      [[Token.lit "The", Token.lit "blue", Token.lit "fox", Token.lit "ran"]] =
      [([PAD, PAD, PAD], Token.lit "The"),
       ([PAD, PAD, Token.lit "The"], Token.lit "blue"),
       ([PAD, Token.lit "The", Token.lit "blue"], Token.lit "fox"),
       ([Token.lit "The", Token.lit "blue", Token.lit "fox"], Token.lit "ran"),
       ([Token.lit "blue", Token.lit "fox", Token.lit "ran"], EOS),
       ([Token.lit "fox", Token.lit "ran", EOS], PAD),
       ([Token.lit "ran", EOS, PAD], PAD),
       ([EOS, PAD, PAD], PAD)] :=
  ⟨count_tokensWithEOS sentences, rfl, by decide⟩

/-- C7: for both codec types, decoding an index inside `[0, vocabulary_size)`
succeeds and yields that index's own entry — 0 to PAD, 1 to OOV, the
TokenCodec indices `i + 2` to vocabulary entry `i`, the GloVe reserved
block to its meta tokens and the GloVe word indices
`i + metas.length + 2` to word entry `i` (never the OOV sentinel) — and
decoding any index outside the range is the out-of-range error, never a
clamped or sentinel value. -/
theorem decode_out_of_range_spec :
    (∀ (c : TokenCodec) (i : Nat),
      ((c.decodeToken i).isSome ↔ i < c.vocabulary_size) ∧
      c.decodeToken 0 = some PAD ∧ c.decodeToken 1 = some OOV ∧
      c.decodeToken (i + 2) = c.vocab.get? i) ∧
    (∀ (g : GloVeCodec) (i : Nat),
      ((g.decodeToken i).isSome ↔ i < g.vocabulary_size) ∧
      g.decodeToken 0 = some PAD ∧ g.decodeToken 1 = some OOV ∧
      (i < g.metas.length → g.decodeToken (i + 2) = g.metas.get? i) ∧
      g.decodeToken (i + g.metas.length + 2) = (g.words.get? i).map Token.lit) := by
  constructor
  · intro c i
    refine ⟨?_, rfl, rfl, ?_⟩
    · unfold TokenCodec.decodeToken TokenCodec.vocabulary_size
      rcases i with _ | _ | j
      · simp
      · simp
      · have h2 : j + 1 + 1 ≠ 0 := by omega
        have h1 : j + 1 + 1 ≠ 1 := by omega
        rw [if_neg h2, if_neg h1]
        rw [List.get?_eq_getElem?, getElem?_isSome_iff]
        omega
    · unfold TokenCodec.decodeToken
      have h2 : i + 2 ≠ 0 := by omega
      have h1 : i + 2 ≠ 1 := by omega
      rw [if_neg h2, if_neg h1]
      simp
  · intro g i
    refine ⟨?_, rfl, rfl, ?_, ?_⟩
    · unfold GloVeCodec.decodeToken GloVeCodec.vocabulary_size
      rcases i with _ | _ | j
      · simp
      · simp
      · have h2 : j + 1 + 1 ≠ 0 := by omega
        have h1 : j + 1 + 1 ≠ 1 := by omega
        rw [if_neg h2, if_neg h1]
        have hsub : j + 1 + 1 - 2 = j := by omega
        rw [hsub]
        by_cases hm : j < g.metas.length
        · rw [List.get?_eq_getElem?, List.getElem?_eq_getElem hm]
          simp
          omega
        · have hnone : g.metas.get? j = none := by
            rw [List.get?_eq_getElem?, List.getElem?_eq_none (by omega)]
          rw [hnone]
          rw [List.get?_eq_getElem?]
          simp only [Option.isSome_map', getElem?_isSome_iff]
          omega
    · intro hm
      unfold GloVeCodec.decodeToken
      have h2 : i + 2 ≠ 0 := by omega
      have h1 : i + 2 ≠ 1 := by omega
      rw [if_neg h2, if_neg h1]
      have hsub : i + 2 - 2 = i := by omega
      rw [hsub]
      rw [List.get?_eq_getElem?, List.getElem?_eq_getElem hm]
    · unfold GloVeCodec.decodeToken
      have h2 : i + g.metas.length + 2 ≠ 0 := by omega
      have h1 : i + g.metas.length + 2 ≠ 1 := by omega
      rw [if_neg h2, if_neg h1]
      have hsub : i + g.metas.length + 2 - 2 = i + g.metas.length := by omega
      rw [hsub]
      have hnone : g.metas.get? (i + g.metas.length) = none := by
        rw [List.get?_eq_getElem?, List.getElem?_eq_none (by omega)]
      rw [hnone]
      have hsub2 : i + g.metas.length - g.metas.length = i := by omega
      rw [hsub2]

/-- Witness for C7 at concrete inputs: a one-token codec rejects index 3,
a GloVe reserved index decodes to its meta token, and a GloVe word index
decodes to its word entry. -/
theorem decode_out_of_range_spec_witness :
    (TokenCodec.create_from_tokens [Token.lit "a"]).decodeToken 3 = none ∧
    (GloVeCodec.mk [EOS] ["a"] [[0]] 1).decodeToken 2 = some EOS ∧
    (GloVeCodec.mk [EOS] ["a"] [[0]] 1).decodeToken 3 = some (Token.lit "a") := by
  refine ⟨?_, ?_, ?_⟩
  · have h1 := (decode_out_of_range_spec.1
      (TokenCodec.create_from_tokens [Token.lit "a"]) 3).1
    have hlt : ¬ (3 < (TokenCodec.create_from_tokens [Token.lit "a"]).vocabulary_size) := by
      decide
    exact Option.not_isSome_iff_eq_none.mp (fun hs => hlt (h1.mp hs))
  · have h2 := (decode_out_of_range_spec.2
      (GloVeCodec.mk [EOS] ["a"] [[0]] 1) 0).2.2.2.1 (by decide)
    exact h2.trans rfl
  · have h3 := (decode_out_of_range_spec.2
      (GloVeCodec.mk [EOS] ["a"] [[0]] 1) 0).2.2.2.2
    exact h3.trans rfl

/-- C8: re-reading the same text sources yields the exact same character
sequence: a second call to `characters_from_text_files` on the
already-read (hence already-advanced) sources produces a sequence equal
to the first call's. -/
theorem characters_from_text_files_idempotent (files : List TextFile) :
    (characters_from_text_files (characters_from_text_files files).2).1
      = (characters_from_text_files files).1 := by
  induction files with
  | nil => rfl
  | cons f rest ih =>
    simp only [characters_from_text_files] at *
    rw [ih]

/-- C9: the generate command writes the seed verbatim followed by the
surface text of at most `n` tokens drawn in order from the model's stream,
none of which is a meta token: the consumer filters meta tokens before
display. -/
theorem generate_command_output_spec (seed : String) (n : Nat)
    (stream : List Token) :
    ∃ shown : List Token,
      shown.Sublist stream ∧
      shown.length ≤ n ∧
      (∀ t ∈ shown, t.is_meta = false) ∧
      generate_command_output seed n stream
        = seed ++ String.join (shown.map Token.str) := by
  refine ⟨(stream.filter (fun t => !t.is_meta)).take n, ?_, ?_, ?_, ?_⟩
  · exact (List.take_sublist _ _).trans (List.filter_sublist _)
  · simp only [List.length_take]
    exact Nat.min_le_left n (stream.filter (fun t => !t.is_meta)).length
  · intro t ht
    have := List.mem_filter.mp (List.mem_of_mem_take ht)
    simpa using this.2
  · rfl

/-- C10: the train command loads the saved model exactly when `--model`
names an existing path; otherwise it creates a fresh tokenizer and model,
saving them when `--model` was given and only logging a warning (saving
nothing, and handing the training call no save path) when `--model` is
absent. -/
theorem train_command_setup_spec (model : Option String)
    (pathExists : String → Bool) :
    (∀ p, model = some p → pathExists p = true →
      train_command_setup model pathExists
        = ⟨some p, false, none, false, some p⟩) ∧
    (∀ p, model = some p → pathExists p = false →
      train_command_setup model pathExists
        = ⟨none, true, some p, false, some p⟩) ∧
    (model = none →
      train_command_setup model pathExists
        = ⟨none, true, none, true, none⟩) := by
  refine ⟨?_, ?_, ?_⟩
  · intro p hp hex
    subst hp
    simp [train_command_setup, hex]
  · intro p hp hex
    subst hp
    simp [train_command_setup, hex]
  · intro hp
    subst hp
    rfl

/-- Witness for C10 at concrete inputs. -/
theorem train_command_setup_spec_witness :
    train_command_setup (some "model") (fun _ => true)
      = ⟨some "model", false, none, false, some "model"⟩ :=
  (train_command_setup_spec (some "model") (fun _ => true)).1 "model" rfl rfl

end Ghostwriter
